import Mathlib

/-!
Verification development for the bounded-parallel task runner and helper
functions in `dev-tools/mage/common.go`.

The runner `ParallelCtx` (common.go 512-553) spawns one goroutine per task.
Each goroutine acquires one slot of a buffered channel of capacity
`numParallel()` before running its wrapped function, records a returned error
or a recovered panic value in a mutex-protected string list, and releases its
slot in a deferred function.  After `wg.Wait()` the runner panics with the
newline-joined error list when it is non-empty.

The embedding models a run as a small-step transition system: every task is
identified by the outcome its wrapped function produces under the given
context, and a state holds the multisets of pending, running and completed
tasks together with the list of recorded error strings.
-/

namespace Mage

/-- Outcome of running one wrapped task function `func(context.Context) error`:
it returns nil, returns a non-nil error whose formatted message is `msg`, or
panics with a value whose formatted message is `msg`. -/
inductive TaskOutcome where
  | ok
  | fail (msg : String)
  | panicked (msg : String)
deriving DecidableEq

/-- Strings the goroutine body of `ParallelCtx` records for one outcome: a
non-nil error is appended to `errs` under the mutex (common.go 541-545), and a
panic value is recovered in the deferred function and appended likewise
(common.go 529-537).  A nil error records nothing. -/
def errMsgs : TaskOutcome → List String
  | .ok => []
  | .fail m => [m]
  | .panicked m => [m]

/-- All strings recorded when every task in the list has completed, in task
order. -/
def failMsgs : List TaskOutcome → List String
  | [] => []
  | t :: ts => errMsgs t ++ failMsgs ts

/-- State of one `ParallelCtx` run: tasks whose goroutines have not yet sent
into the semaphore channel, tasks currently holding a channel slot, tasks that
have completed and released their slot, and the `errs` list guarded by the
mutex. -/
structure RunState where
  pending : Multiset TaskOutcome
  running : Multiset TaskOutcome
  done : Multiset TaskOutcome
  errs : List String
deriving DecidableEq

/-- Transition labels: a task acquires its semaphore slot and starts running,
or a task completes (recording its messages) and releases its slot. -/
inductive StepLabel where
  | startL (t : TaskOutcome)
  | finishL (t : TaskOutcome)
deriving DecidableEq

/-- One scheduler step of a `ParallelCtx` run with semaphore capacity `cap`.
`start`: a pending goroutine's send `parallelJobs() <- 1` succeeds, which
requires the buffered channel to hold fewer than `cap` tokens (common.go 539).
`finish`: a running goroutine's function returns or panics; the body and the
deferred function append the outcome's messages to `errs` and the deferred
receive `<-parallelJobs()` returns its token (common.go 529-545). -/
inductive Step (cap : Nat) : RunState → StepLabel → RunState → Prop where
  | start (t : TaskOutcome) (s : RunState) :
      t ∈ s.pending →
      Multiset.card s.running < cap →
      Step cap s (.startL t)
        ⟨s.pending.erase t, s.running + {t}, s.done, s.errs⟩
  | finish (t : TaskOutcome) (s : RunState) :
      t ∈ s.running →
      Step cap s (.finishL t)
        ⟨s.pending, s.running.erase t, s.done + {t}, s.errs ++ errMsgs t⟩

/-- Some step with any label. -/
def StepAny (cap : Nat) (s s' : RunState) : Prop :=
  ∃ l, Step cap s l s'

/-- Initial state: all goroutines spawned but none has acquired a slot, no
task completed, empty `errs`. -/
def initState (ts : List TaskOutcome) : RunState :=
  ⟨↑ts, 0, 0, []⟩

/-- States a run of the given task list can be in. -/
def Reachable (cap : Nat) (ts : List TaskOutcome) : RunState → Prop :=
  Relation.ReflTransGen (StepAny cap) (initState ts)

/-- States in which `wg.Wait()` returns: every goroutine has finished. -/
def Terminal (s : RunState) : Prop :=
  s.pending = 0 ∧ s.running = 0

/-- Multiset of all messages recorded by a multiset of completed tasks. -/
def doneErrs (d : Multiset TaskOutcome) : Multiset String :=
  d.bind (fun t => ↑(errMsgs t))

/-- Run invariant: no task is lost or duplicated, and `errs` holds exactly the
messages of the completed tasks. -/
structure RunInv (ts : List TaskOutcome) (s : RunState) : Prop where
  total : s.pending + s.running + s.done = ↑ts
  errs_eq : (↑s.errs : Multiset String) = doneErrs s.done

lemma runInv_init (ts : List TaskOutcome) : RunInv ts (initState ts) := by
  constructor
  · simp [initState]
  · simp [initState, doneErrs]

lemma runInv_step {cap : Nat} {ts : List TaskOutcome} {s s' : RunState}
    {l : StepLabel} (hinv : RunInv ts s) (hstep : Step cap s l s') :
    RunInv ts s' := by
  cases hstep with
  | start t s ht _ =>
      refine ⟨?_, hinv.errs_eq⟩
      have h1 : s.pending.erase t + {t} = s.pending := by
        rw [add_comm, Multiset.singleton_add, Multiset.cons_erase ht]
      calc s.pending.erase t + (s.running + {t}) + s.done
          = (s.pending.erase t + {t}) + s.running + s.done := by abel
        _ = s.pending + s.running + s.done := by rw [h1]
        _ = ↑ts := hinv.total
  | finish t s ht =>
      constructor
      · have h1 : s.running.erase t + {t} = s.running := by
          rw [add_comm, Multiset.singleton_add, Multiset.cons_erase ht]
        calc s.pending + s.running.erase t + (s.done + {t})
            = s.pending + (s.running.erase t + {t}) + s.done := by abel
          _ = s.pending + s.running + s.done := by rw [h1]
          _ = ↑ts := hinv.total
      · show ((s.errs ++ errMsgs t : List String) : Multiset String)
            = doneErrs (s.done + {t})
        rw [← Multiset.coe_add, hinv.errs_eq]
        simp [doneErrs, Multiset.add_bind, Multiset.singleton_bind]

lemma reachable_runInv {cap : Nat} {ts : List TaskOutcome} {s : RunState}
    (h : Reachable cap ts s) : RunInv ts s := by
  induction h with
  | refl => exact runInv_init ts
  | tail _ hstep ih =>
      obtain ⟨l, hl⟩ := hstep
      exact runInv_step ih hl

lemma reachable_card_running {cap : Nat} {ts : List TaskOutcome} {s : RunState}
    (h : Reachable cap ts s) : Multiset.card s.running ≤ cap := by
  induction h with
  | refl => simp [initState]
  | tail _ hstep ih =>
      obtain ⟨l, hl⟩ := hstep
      cases hl with
      | start t _ ht hc => simpa using hc
      | finish t _ ht =>
          refine le_trans (Multiset.card_le_card ?_) ih
          exact Multiset.erase_le _ _

lemma doneErrs_coe (ts : List TaskOutcome) :
    doneErrs ↑ts = ↑(failMsgs ts) := by
  induction ts with
  | nil => simp [doneErrs, failMsgs]
  | cons t ts ih =>
      have hc : ((t :: ts : List TaskOutcome) : Multiset TaskOutcome)
          = t ::ₘ ↑ts := rfl
      rw [failMsgs, hc, doneErrs, Multiset.cons_bind]
      rw [show (↑ts : Multiset TaskOutcome).bind (fun t => ↑(errMsgs t))
            = doneErrs ↑ts from rfl]
      rw [ih, ← Multiset.coe_add]

lemma mem_failMsgs_of_mem {ts : List TaskOutcome} {m : String}
    (h : TaskOutcome.panicked m ∈ ts) : m ∈ failMsgs ts := by
  induction ts with
  | nil => cases h
  | cons t ts ih =>
      rcases List.mem_cons.mp h with h | h
      · subst h
        simp [failMsgs, errMsgs]
      · exact List.mem_append_right _ (ih h)

lemma terminal_done_eq {cap : Nat} {ts : List TaskOutcome} {s : RunState}
    (h : Reachable cap ts s) (ht : Terminal s) :
    s.done = ↑ts ∧ (↑s.errs : Multiset String) = ↑(failMsgs ts) := by
  obtain ⟨hp, hr⟩ := ht
  have hinv := reachable_runInv h
  have htotal := hinv.total
  rw [hp, hr] at htotal
  simp at htotal
  refine ⟨htotal, ?_⟩
  rw [hinv.errs_eq, htotal, doneErrs_coe]

lemma terminal_no_step {cap : Nat} {s s' : RunState}
    (hs : Terminal s) : ¬ StepAny cap s s' := by
  rintro ⟨l, hl⟩
  cases hl with
  | start t _ ht hc =>
      rw [hs.1] at ht
      exact Multiset.not_mem_zero t ht
  | finish t _ ht =>
      rw [hs.2] at ht
      exact Multiset.not_mem_zero t ht

lemma progress_measure (cap : Nat) (hcap : 1 ≤ cap) :
    ∀ n : Nat, ∀ s : RunState,
      2 * Multiset.card s.pending + Multiset.card s.running ≤ n →
      ∃ s', Relation.ReflTransGen (StepAny cap) s s' ∧ Terminal s' := by
  intro n
  induction n with
  | zero =>
      intro s hle
      have hp : Multiset.card s.pending = 0 := by omega
      have hr : Multiset.card s.running = 0 := by omega
      exact ⟨s, Relation.ReflTransGen.refl,
        Multiset.card_eq_zero.mp hp, Multiset.card_eq_zero.mp hr⟩
  | succ n ih =>
      intro s hle
      by_cases hrun : s.running = 0
      · by_cases hpend : s.pending = 0
        · exact ⟨s, Relation.ReflTransGen.refl, hpend, hrun⟩
        · obtain ⟨t, ht⟩ := Multiset.exists_mem_of_ne_zero hpend
          have hr0 : Multiset.card s.running = 0 := by
            rw [hrun]
            simp
          have hcard : Multiset.card s.running < cap := by omega
          have hstep := @Step.start cap t s ht hcard
          have hple : 1 ≤ Multiset.card s.pending :=
            Multiset.card_pos.mpr (fun h => hpend h)
          have hm : 2 * Multiset.card (s.pending.erase t)
              + Multiset.card (s.running + {t}) ≤ n := by
            rw [Multiset.card_erase_of_mem ht, Nat.pred_eq_sub_one]
            simp only [Multiset.card_add, Multiset.card_singleton]
            omega
          obtain ⟨s', hpath, hterm⟩ :=
            ih ⟨s.pending.erase t, s.running + {t}, s.done, s.errs⟩ hm
          exact ⟨s', Relation.ReflTransGen.head ⟨_, hstep⟩ hpath, hterm⟩
      · obtain ⟨t, ht⟩ := Multiset.exists_mem_of_ne_zero hrun
        have hstep := @Step.finish cap t s ht
        have hrle : 1 ≤ Multiset.card s.running :=
          Multiset.card_pos.mpr (fun h => hrun h)
        have hm : 2 * Multiset.card s.pending
            + Multiset.card (s.running.erase t) ≤ n := by
          rw [Multiset.card_erase_of_mem ht, Nat.pred_eq_sub_one]
          omega
        obtain ⟨s', hpath, hterm⟩ :=
          ih ⟨s.pending, s.running.erase t, s.done + {t}, s.errs ++ errMsgs t⟩ hm
        exact ⟨s', Relation.ReflTransGen.head ⟨_, hstep⟩ hpath, hterm⟩

lemma reachable_terminal (cap : Nat) (ts : List TaskOutcome) (hcap : 1 ≤ cap) :
    ∃ s, Reachable cap ts s ∧ Terminal s := by
  obtain ⟨s, hpath, hterm⟩ :=
    progress_measure cap hcap
      (2 * Multiset.card (initState ts).pending
        + Multiset.card (initState ts).running) (initState ts) le_rfl
  exact ⟨s, hpath, hterm⟩

/-- A Go `context.Context` as far as the runner uses it: `ParallelCtx` only
passes it through to the task functions.  `background` is the non-cancellable
root context produced by `context.Background()`; other contexts are
distinguished by an identifier. -/
inductive GoContext where
  | background
  | other (id : Nat)
deriving DecidableEq

/-- A value passed to `ParallelCtx` through its variadic `fns ...interface` *
parameter: a function taking the context, a function taking no argument, or a
value of some other type. -/
inductive GoFnVal where
  | ctxFn (f : GoContext → TaskOutcome)
  | noArgFn (f : Unit → TaskOutcome)
  | notAFn

/-- Modelled from the spec: `types.FuncTypeWrap` (from the mage library, not
part of this repository) converts a supported task function, with or without a
context parameter, into `func(context.Context) error`, and returns nil for any
other value. -/
def FuncTypeWrap : GoFnVal → Option (GoContext → TaskOutcome)
  | .ctxFn f => some f
  | .noArgFn f => some (fun _ => f ())
  | .notAFn => none

/-- The wrapping loop of `ParallelCtx` (common.go 513-520): each argument is
wrapped in order; the first argument for which `types.FuncTypeWrap` returns
nil makes the call panic, before any task is started. -/
def wrapAll : List GoFnVal → Option (List (GoContext → TaskOutcome))
  | [] => some []
  | f :: fs =>
    match FuncTypeWrap f with
    | none => none
    | some w => (wrapAll fs).map (fun ws => w :: ws)

/-- The panic message raised for an unsupported argument (common.go 517). -/
def wrapPanicMsg : String :=
  "attempted to add a dep that did not match required function type"

/-- How one call to `ParallelCtx` ends as observed by its caller: a normal
return, or a panic carrying the given message. -/
inductive ProcOutcome where
  | normal
  | raised (msg : String)
deriving DecidableEq

/-- What `ParallelCtx` does after `wg.Wait()` (common.go 549-552): panic with
the newline-joined `errs` when the list is non-empty, return normally
otherwise. -/
def aggResult (errs : List String) : ProcOutcome :=
  if errs.isEmpty then .normal else .raised (String.intercalate "\n" errs)

/-- The outcomes the wrapped functions produce when invoked with `ctx`
(common.go 541). -/
def outcomes (ctx : GoContext) (ws : List (GoContext → TaskOutcome)) :
    List TaskOutcome :=
  ws.map (fun w => w ctx)

/-- Possible observable results of `ParallelCtx ctx fns` when the process
semaphore has capacity `cap`: either some argument fails to wrap and the call
panics immediately, or all arguments wrap, the run proceeds to a state where
every goroutine has finished, and the call returns the aggregate of the
recorded errors. -/
inductive ParallelCtxCan (cap : Nat) (ctx : GoContext) (fns : List GoFnVal) :
    ProcOutcome → Prop where
  | wrapFail :
      wrapAll fns = none →
      ParallelCtxCan cap ctx fns (.raised wrapPanicMsg)
  | completes (ws : List (GoContext → TaskOutcome)) (s : RunState) :
      wrapAll fns = some ws →
      Reachable cap (outcomes ctx ws) s →
      Terminal s →
      ParallelCtxCan cap ctx fns (aggResult s.errs)

/-- The function `Parallel` (common.go 557-559) delegates to `ParallelCtx` with
`context.Background()`. -/
def ParallelCan (cap : Nat) (fns : List GoFnVal) (out : ProcOutcome) : Prop :=
  ParallelCtxCan cap GoContext.background fns out

/-- A task with outcome `t` has started executing in some reachable state of a
`ParallelCtx ctx fns` run. -/
def TaskStarted (cap : Nat) (ctx : GoContext) (fns : List GoFnVal)
    (t : TaskOutcome) : Prop :=
  ∃ ws s, wrapAll fns = some ws ∧ Reachable cap (outcomes ctx ws) s ∧
    t ∈ s.running

lemma wrapAll_eq_none {fns : List GoFnVal} {f : GoFnVal}
    (hf : f ∈ fns) (hnone : FuncTypeWrap f = none) : wrapAll fns = none := by
  induction fns with
  | nil => cases hf
  | cons g fns ih =>
      rcases List.mem_cons.mp hf with h | h
      · subst h
        simp [wrapAll, hnone]
      · rw [wrapAll]
        cases hw : FuncTypeWrap g with
        | none => rfl
        | some w =>
            rw [ih h]
            rfl

/-- Decimal value of a digit string, most significant first. -/
def digitsToNat (acc : Nat) : List Char → Nat
  | [] => acc
  | c :: cs => digitsToNat (acc * 10 + (c.toNat - 48)) cs

/-- Parse the digit part of a Go integer literal with the given sign: at least
one decimal digit, nothing else, and the resulting value inside the int64
range. -/
def goAtoiFrom (sign : Int) (digits : List Char) : Option Int :=
  if digits = [] then none
  else if digits.all Char.isDigit then
    let v : Int := sign * (digitsToNat 0 digits : Nat)
    if -(2 ^ 63) ≤ v ∧ v ≤ 2 ^ 63 - 1 then some v else none
  else none

/-- Go `strconv.Atoi` on a 64-bit platform: an optional sign followed by at
least one decimal digit, rejecting any other character and any value outside
the int64 range.  `none` models a non-nil error. -/
def goAtoi (s : String) : Option Int :=
  match s.data with
  | [] => none
  | c :: cs =>
    if c = '-' then goAtoiFrom (-1) cs
    else if c = '+' then goAtoiFrom 1 cs
    else goAtoiFrom 1 (c :: cs)

/-- The fields of `DockerInfo` (common.go 173-178) that `numParallel` reads. -/
structure DockerInfo where
  NCPU : Int
deriving DecidableEq

/-- The fall-through branch of `numParallel` (common.go 499-506): start from
the local CPU count and lower it to the Docker host's CPU count when
`GetDockerInfo` succeeded and reported fewer CPUs.  `docker = none` models a
non-nil error from `GetDockerInfo`. -/
def numParallelDefault (numCPU : Int) (docker : Option DockerInfo) : Int :=
  match docker with
  | some info => if info.NCPU < numCPU then info.NCPU else numCPU
  | none => numCPU

/-- The function `numParallel` (common.go 490-507): if the `MAX_PARALLEL` environment
variable is non-empty, parses with `strconv.Atoi` and is positive, return it;
otherwise return the default.  `env` is the value `os.Getenv("MAX_PARALLEL")`
returns, the empty string when the variable is unset. -/
def numParallel (env : String) (numCPU : Int) (docker : Option DockerInfo) :
    Int :=
  match (if env = "" then none else goAtoi env) with
  | some num => if 0 < num then num else numParallelDefault numCPU docker
  | none => numParallelDefault numCPU docker

/-- The function `parallelJobs` (common.go 477-488), with the process-global
`parallelJobsSemaphore` made explicit: `sem` is the channel's capacity, `none`
while the variable is still nil.  The function returns the capacity of the
channel it hands out together with the updated global.  The mutex around the
body serialises calls, so the sequential state-passing model is exact. -/
def parallelJobs (sem : Option Int) (env : String) (numCPU : Int)
    (docker : Option DockerInfo) : Int × Option Int :=
  match sem with
  | some cap => (cap, some cap)
  | none =>
    let m := numParallel env numCPU docker
    (m, some m)

/-- A Go `map[string]V` variable: nil, or an initialized map modelled as an
association list with the latest binding first. -/
inductive GoMap (V : Type) where
  | nilMap
  | mk (entries : List (String × V))
deriving DecidableEq

/-- The entries range of a map; a nil map ranges over nothing. -/
def mapEntries {V : Type} : GoMap V → List (String × V)
  | .nilMap => []
  | .mk es => es

/-- A Go map assignment `out[k] = v`.  Assigning into a nil map is a runtime
fault, modelled as `none`. -/
def mapAssign {V : Type} : GoMap V → String → V → Option (GoMap V)
  | .nilMap, _, _ => none
  | .mk es, k, v => some (.mk ((k, v) :: es.filter (fun p => p.1 ≠ k)))

/-- The inner loop of `joinMaps` for one argument map: `for k, v := range m`
performing `out[k] = v` for each entry. -/
def assignAll {V : Type} (out : GoMap V) (m : GoMap V) : Option (GoMap V) :=
  (mapEntries m).foldlM (fun o kv => mapAssign o kv.1 kv.2) out

/-- The function `joinMaps` (common.go 107-122): zero arguments return nil, one argument is
returned unchanged, and otherwise every entry of every argument is assigned
into `out`, which was declared `var out map[string]interface` * and never
allocated, so it is nil.  `none` models the runtime fault of such an
assignment. -/
def joinMaps {V : Type} (args : List (GoMap V)) : Option (GoMap V) :=
  match args with
  | [] => some .nilMap
  | [m] => some m
  | _ => args.foldlM assignAll GoMap.nilMap

lemma assignAll_nil_of_ne {V : Type} (m : GoMap V) (h : mapEntries m ≠ []) :
    assignAll GoMap.nilMap m = none := by
  unfold assignAll
  cases hes : mapEntries m with
  | nil => exact absurd hes h
  | cons kv rest => rfl

lemma assignAll_nil_of_empty {V : Type} (m : GoMap V) (h : mapEntries m = []) :
    assignAll GoMap.nilMap m = some GoMap.nilMap := by
  unfold assignAll
  rw [h]
  rfl

lemma can_completes_inv {cap : Nat} {ctx : GoContext} {fns : List GoFnVal}
    {ws : List (GoContext → TaskOutcome)} {out : ProcOutcome}
    (hw : wrapAll fns = some ws) (hout : ParallelCtxCan cap ctx fns out) :
    ∃ s : RunState, Reachable cap (outcomes ctx ws) s ∧ Terminal s ∧
      out = aggResult s.errs := by
  cases hout with
  | wrapFail hnone =>
      rw [hw] at hnone
      cases hnone
  | completes ws' s hw' hr ht =>
      rw [hw] at hw'
      injection hw' with hws
      subst hws
      exact ⟨s, hr, ht, rfl⟩

lemma failMsgs_length (ts : List TaskOutcome) :
    (failMsgs ts).length
      = (ts.filter (fun t => decide (t ≠ TaskOutcome.ok))).length := by
  induction ts with
  | nil => rfl
  | cons t ts ih =>
      cases t <;> simp [failMsgs, errMsgs, List.filter_cons, ih]

lemma single_task_run (t : TaskOutcome) :
    ∃ s : RunState, Reachable 1 [t] s ∧ Terminal s ∧ s.errs = errMsgs t := by
  have h1 : t ∈ (initState [t]).pending := by
    show t ∈ (↑[t] : Multiset TaskOutcome)
    simp
  have h2 : Multiset.card (initState [t]).running < 1 := by
    show Multiset.card (0 : Multiset TaskOutcome) < 1
    simp
  have step1 := @Step.start 1 t (initState [t]) h1 h2
  have h3 : t ∈ ((⟨(initState [t]).pending.erase t,
      (initState [t]).running + {t}, (initState [t]).done,
      (initState [t]).errs⟩ : RunState)).running := by
    show t ∈ (initState [t]).running + {t}
    simp
  have step2 := @Step.finish 1 t
      ⟨(initState [t]).pending.erase t, (initState [t]).running + {t},
        (initState [t]).done, (initState [t]).errs⟩ h3
  refine ⟨_, Relation.ReflTransGen.head ⟨_, step1⟩
      (Relation.ReflTransGen.head ⟨_, step2⟩ Relation.ReflTransGen.refl),
      ⟨?_, ?_⟩, ?_⟩
  · show (initState [t]).pending.erase t = 0
    show ((t ::ₘ 0 : Multiset TaskOutcome)).erase t = 0
    rw [Multiset.erase_cons_head]
  · show ((initState [t]).running + {t}).erase t = 0
    show ((0 + {t} : Multiset TaskOutcome)).erase t = 0
    simp
  · show (initState [t]).errs ++ errMsgs t = errMsgs t
    show [] ++ errMsgs t = errMsgs t
    exact List.nil_append _

/-- C3: `numParallel` returns the `MAX_PARALLEL` override whenever it parses
as a positive integer; when the variable is unset, fails to parse, or is
non-positive, it returns the minimum of the local CPU count and the Docker
host's CPU count, or the local CPU count alone when `GetDockerInfo` failed. -/
theorem numParallel_cap_spec (env : String) (numCPU : Int)
    (docker : Option DockerInfo) :
    (∀ n : Int, goAtoi env = some n → 0 < n →
      numParallel env numCPU docker = n) ∧
    ((goAtoi env = none ∨ ∃ n : Int, goAtoi env = some n ∧ n ≤ 0) →
      numParallel env numCPU docker =
        match docker with
        | some info => min info.NCPU numCPU
        | none => numCPU) := by
  have hdef : numParallelDefault numCPU docker =
      match docker with
      | some info => min info.NCPU numCPU
      | none => numCPU := by
    cases docker with
    | none => rfl
    | some info =>
        show (if info.NCPU < numCPU then info.NCPU else numCPU)
          = min info.NCPU numCPU
        by_cases hlt : info.NCPU < numCPU
        · rw [if_pos hlt]
          exact (min_eq_left (le_of_lt hlt)).symm
        · rw [if_neg hlt]
          exact (min_eq_right (le_of_not_lt hlt)).symm
  constructor
  · intro n hn hpos
    have henv : ¬ env = "" := by
      intro h
      subst h
      rw [show goAtoi "" = none from rfl] at hn
      cases hn
    unfold numParallel
    rw [if_neg henv, hn]
    simp [hpos]
  · intro h
    unfold numParallel
    by_cases henv : env = ""
    · rw [if_pos henv]
      exact hdef
    · rw [if_neg henv]
      rcases h with h | ⟨n, hn, hle⟩
      · rw [h]
        exact hdef
      · rw [hn]
        show (if 0 < n then n else numParallelDefault numCPU docker) = _
        rw [if_neg (not_lt.mpr hle)]
        exact hdef

/-- Witness for C3: the positive override `MAX_PARALLEL=4` wins over 8 local
CPUs and a 2-CPU Docker host; with the variable unset the minimum of the two
CPU counts is used. -/
theorem numParallel_cap_spec_witness :
    (goAtoi "4" = some 4 ∧ (0 : Int) < 4
      ∧ numParallel "4" 8 (some ⟨2⟩) = 4) ∧
    (goAtoi "" = none ∧ numParallel "" 8 (some ⟨2⟩) = min (2 : Int) 8) :=
  ⟨⟨by decide, by decide,
    (numParallel_cap_spec "4" 8 (some ⟨2⟩)).1 4 (by decide) (by decide)⟩,
   ⟨by decide,
    (numParallel_cap_spec "" 8 (some ⟨2⟩)).2 (Or.inl (by decide))⟩⟩

/-- C7: the semaphore channel is created lazily on first use with capacity
`numParallel()`, later calls return the cached channel unchanged even under a
changed environment, and no call re-creates or resizes it. -/
theorem parallelJobs_lazy_once (env : String) (numCPU : Int)
    (docker : Option DockerInfo) (env' : String) (numCPU' : Int)
    (docker' : Option DockerInfo) :
    (parallelJobs none env numCPU docker).1 = numParallel env numCPU docker ∧
    (parallelJobs none env numCPU docker).2
      = some (numParallel env numCPU docker) ∧
    (∀ cap : Int,
      parallelJobs (some cap) env' numCPU' docker' = (cap, some cap)) ∧
    parallelJobs (parallelJobs none env numCPU docker).2 env' numCPU' docker'
      = (numParallel env numCPU docker,
         some (numParallel env numCPU docker)) :=
  ⟨rfl, rfl, fun _ => rfl, rfl⟩

lemma foldl_assignAll_none {V : Type} :
    ∀ args : List (GoMap V), (∃ m ∈ args, mapEntries m ≠ []) →
      args.foldlM assignAll GoMap.nilMap = none := by
  intro args
  induction args with
  | nil =>
      rintro ⟨m, hm, _⟩
      cases hm
  | cons a args ih =>
      rintro ⟨m, hm, hne⟩
      rw [List.foldlM_cons]
      by_cases ha : mapEntries a = []
      · rw [assignAll_nil_of_empty a ha]
        have hmem : m ∈ args := by
          rcases List.mem_cons.mp hm with h | h
          · subst h
            exact absurd ha hne
          · exact h
        simpa using ih ⟨m, hmem, hne⟩
      · rw [assignAll_nil_of_ne a ha]
        rfl

/-- C10: `joinMaps` with two or more argument maps of which at least one is
non-empty assigns into the never-allocated nil `out` map and faults; with
zero arguments it returns nil and with one argument it returns that map
unchanged. -/
theorem joinMaps_nil_assignment (V : Type) (args : List (GoMap V)) :
    (2 ≤ args.length → (∃ m ∈ args, mapEntries m ≠ []) →
      joinMaps args = none) ∧
    joinMaps ([] : List (GoMap V)) = some GoMap.nilMap ∧
    (∀ m : GoMap V, joinMaps [m] = some m) := by
  refine ⟨?_, rfl, fun m => rfl⟩
  intro h2 hex
  match args, h2 with
  | a :: b :: rest, _ =>
      exact foldl_assignAll_none _ hex

/-- Witness for C10: two maps, the first non-empty, make `joinMaps` fault. -/
theorem joinMaps_nil_assignment_witness :
    2 ≤ ([GoMap.mk [("a", 1)], GoMap.mk []] : List (GoMap Nat)).length ∧
    (∃ m ∈ ([GoMap.mk [("a", 1)], GoMap.mk []] : List (GoMap Nat)),
      mapEntries m ≠ []) ∧
    joinMaps ([GoMap.mk [("a", 1)], GoMap.mk []] : List (GoMap Nat)) = none :=
  ⟨by decide, by decide,
   (joinMaps_nil_assignment Nat [GoMap.mk [("a", 1)], GoMap.mk []]).1
     (by decide) (by decide)⟩

/-- C6: with zero tasks `ParallelCtx` can only return normally, and does so
immediately, whatever the semaphore capacity and the context. -/
theorem parallelCtx_zero_tasks (cap : Nat) (ctx : GoContext) :
    ParallelCtxCan cap ctx [] ProcOutcome.normal ∧
    ∀ out, ParallelCtxCan cap ctx [] out → out = ProcOutcome.normal := by
  have hterm : Terminal (initState (outcomes ctx [])) := ⟨rfl, rfl⟩
  constructor
  · exact ParallelCtxCan.completes [] (initState (outcomes ctx []))
      rfl Relation.ReflTransGen.refl hterm
  · intro out hout
    cases hout with
    | wrapFail hnone => cases hnone
    | completes ws s hw hr ht =>
        have hws : ws = [] := by
          injection hw with h
          exact h.symm
        subst hws
        have hs : initState (outcomes ctx []) = s := by
          rcases Relation.ReflTransGen.cases_head hr with h | ⟨c, hc, _⟩
          · exact h
          · exact absurd hc (terminal_no_step hterm)
        rw [← hs]
        rfl

/-- C2: in every reachable state of a run at most `cap` tasks hold a
semaphore slot; a task can start only when a slot is free, taking one; and a
finishing task always gives its slot back, whatever its outcome. -/
theorem parallelCtx_concurrency_bound (cap : Nat) (ts : List TaskOutcome)
    (s : RunState) (h : Reachable cap ts s) :
    Multiset.card s.running ≤ cap ∧
    (∀ t s', Step cap s (StepLabel.startL t) s' →
      Multiset.card s.running < cap ∧
      Multiset.card s'.running = Multiset.card s.running + 1) ∧
    (∀ t s', Step cap s (StepLabel.finishL t) s' →
      Multiset.card s'.running + 1 = Multiset.card s.running) := by
  refine ⟨reachable_card_running h, ?_, ?_⟩
  · intro t s' hstep
    cases hstep with
    | start _ _ ht hc =>
        refine ⟨hc, ?_⟩
        simp
  · intro t s' hstep
    cases hstep with
    | finish _ _ ht =>
        have h1 : 0 < Multiset.card s.running :=
          Multiset.card_pos_iff_exists_mem.mpr ⟨t, ht⟩
        show Multiset.card (s.running.erase t) + 1 = Multiset.card s.running
        rw [Multiset.card_erase_of_mem ht, Nat.pred_eq_sub_one]
        omega

/-- Witness for C2 at the initial state of a one-task run with capacity 1. -/
theorem parallelCtx_concurrency_bound_witness :
    Reachable 1 [TaskOutcome.ok] (initState [TaskOutcome.ok]) ∧
    Multiset.card (initState [TaskOutcome.ok]).running ≤ 1 :=
  ⟨Relation.ReflTransGen.refl,
   (parallelCtx_concurrency_bound 1 [TaskOutcome.ok]
      (initState [TaskOutcome.ok]) Relation.ReflTransGen.refl).1⟩

/-- C8: `Parallel(fns)` admits exactly the observable outcomes of
`ParallelCtx(context.Background(), fns)`, and starts exactly the same tasks. -/
theorem parallel_delegates_to_background (cap : Nat) (fns : List GoFnVal) :
    (∀ out, ParallelCan cap fns out ↔
      ParallelCtxCan cap GoContext.background fns out) ∧
    (∀ t, (∃ ws s, wrapAll fns = some ws ∧
        Reachable cap (outcomes GoContext.background ws) s ∧ t ∈ s.running) ↔
      TaskStarted cap GoContext.background fns t) :=
  ⟨fun _ => Iff.rfl, fun _ => Iff.rfl⟩

/-- C9: when some argument is not an accepted task function, `ParallelCtx`
can only panic with the fixed message, and no task ever starts. -/
theorem parallelCtx_rejects_unwrappable (cap : Nat) (ctx : GoContext)
    (fns : List GoFnVal) (f : GoFnVal) (hf : f ∈ fns)
    (hnone : FuncTypeWrap f = none) :
    wrapAll fns = none ∧
    ParallelCtxCan cap ctx fns (ProcOutcome.raised wrapPanicMsg) ∧
    (∀ out, ParallelCtxCan cap ctx fns out →
      out = ProcOutcome.raised wrapPanicMsg) ∧
    (∀ t, ¬ TaskStarted cap ctx fns t) := by
  have hw := wrapAll_eq_none hf hnone
  refine ⟨hw, ParallelCtxCan.wrapFail hw, ?_, ?_⟩
  · intro out hout
    cases hout with
    | wrapFail _ => rfl
    | completes ws s hws _ _ =>
        rw [hw] at hws
        cases hws
  · rintro t ⟨ws, s, hws, _, _⟩
    rw [hw] at hws
    cases hws

/-- Witness for C9: a non-function argument makes the call panic. -/
theorem parallelCtx_rejects_unwrappable_witness :
    GoFnVal.notAFn ∈ [GoFnVal.notAFn] ∧
    FuncTypeWrap GoFnVal.notAFn = none ∧
    ParallelCtxCan 1 GoContext.background [GoFnVal.notAFn]
      (ProcOutcome.raised wrapPanicMsg) :=
  ⟨List.mem_singleton.mpr rfl, rfl,
   (parallelCtx_rejects_unwrappable 1 GoContext.background [GoFnVal.notAFn]
      GoFnVal.notAFn (List.mem_singleton.mpr rfl) rfl).2.1⟩

lemma errs_nil_of_no_failure {cap : Nat} {ts : List TaskOutcome} {s : RunState}
    (h : Reachable cap ts s) (ht : Terminal s) (hfail : failMsgs ts = []) :
    s.errs = [] := by
  obtain ⟨_, herrs⟩ := terminal_done_eq h ht
  have h0 : (↑s.errs : Multiset String) = 0 := by
    rw [herrs, hfail]
    rfl
  exact (Multiset.coe_eq_zero s.errs).mp h0

lemma errs_ne_nil_of_failure {cap : Nat} {ts : List TaskOutcome} {s : RunState}
    (h : Reachable cap ts s) (ht : Terminal s) (hfail : failMsgs ts ≠ []) :
    s.errs ≠ [] := by
  obtain ⟨_, herrs⟩ := terminal_done_eq h ht
  intro hnil
  have h0 : (↑(failMsgs ts) : Multiset String) = 0 := by
    rw [← herrs, hnil]
    rfl
  exact hfail ((Multiset.coe_eq_zero (failMsgs ts)).mp h0)

lemma aggResult_ne_nil {errs : List String} (hne : errs ≠ []) :
    aggResult errs = ProcOutcome.raised (String.intercalate "\n" errs) := by
  have hb : errs.isEmpty = false := by
    cases herrs : errs with
    | nil => exact absurd herrs hne
    | cons a l => rfl
  simp [aggResult, hb]

/-- C1: with a positive semaphore capacity and all arguments wrappable, some
completed run exists, and every outcome of `ParallelCtx` arises from a state
in which every task has completed; when no task failed the call returns
normally, and otherwise it raises a single panic whose message joins the
collected failure strings, which include every individual failure message. -/
theorem parallelCtx_waits_and_aggregates (cap : Nat) (ctx : GoContext)
    (fns : List GoFnVal) (ws : List (GoContext → TaskOutcome))
    (hcap : 1 ≤ cap) (hw : wrapAll fns = some ws) :
    (∃ out, ParallelCtxCan cap ctx fns out) ∧
    (∀ out, ParallelCtxCan cap ctx fns out →
      ∃ s : RunState, Reachable cap (outcomes ctx ws) s ∧ Terminal s ∧
        s.done = ↑(outcomes ctx ws) ∧ out = aggResult s.errs ∧
        (failMsgs (outcomes ctx ws) = [] → out = ProcOutcome.normal) ∧
        (failMsgs (outcomes ctx ws) ≠ [] →
          s.errs ≠ [] ∧
          out = ProcOutcome.raised (String.intercalate "\n" s.errs) ∧
          ∀ m ∈ failMsgs (outcomes ctx ws), m ∈ s.errs)) := by
  constructor
  · obtain ⟨s, hr, ht⟩ := reachable_terminal cap (outcomes ctx ws) hcap
    exact ⟨aggResult s.errs, ParallelCtxCan.completes ws s hw hr ht⟩
  · intro out hout
    obtain ⟨s, hr, ht, hagg⟩ := can_completes_inv hw hout
    obtain ⟨hdone, herrs⟩ := terminal_done_eq hr ht
    refine ⟨s, hr, ht, hdone, hagg, ?_, ?_⟩
    · intro hfail
      rw [hagg, errs_nil_of_no_failure hr ht hfail]
      rfl
    · intro hfail
      have hne := errs_ne_nil_of_failure hr ht hfail
      refine ⟨hne, ?_, ?_⟩
      · rw [hagg, aggResult_ne_nil hne]
      · intro m hm
        have hmem : m ∈ (↑s.errs : Multiset String) := by
          rw [herrs]
          exact Multiset.mem_coe.mpr hm
        exact Multiset.mem_coe.mp hmem

/-- Witness for C1: a single always-succeeding task with capacity 1. -/
theorem parallelCtx_waits_and_aggregates_witness :
    1 ≤ 1 ∧
    wrapAll [GoFnVal.ctxFn (fun _ => TaskOutcome.ok)]
      = some [fun _ => TaskOutcome.ok] ∧
    (∃ out, ParallelCtxCan 1 GoContext.background
      [GoFnVal.ctxFn (fun _ => TaskOutcome.ok)] out) :=
  ⟨le_refl 1, rfl,
   (parallelCtx_waits_and_aggregates 1 GoContext.background
      [GoFnVal.ctxFn (fun _ => TaskOutcome.ok)] [fun _ => TaskOutcome.ok]
      (le_refl 1) rfl).1⟩

/-- C4: every outcome of a fully-wrapped run carries a collected message list
that is, as a multiset, exactly the per-task failure messages — one per
failing task, so its length is the number of failing tasks — and a failing
run raises the newline-joined concatenation of that list. -/
theorem parallelCtx_exactly_k_failures (cap : Nat) (ctx : GoContext)
    (fns : List GoFnVal) (ws : List (GoContext → TaskOutcome))
    (out : ProcOutcome) (hw : wrapAll fns = some ws)
    (hout : ParallelCtxCan cap ctx fns out) :
    ∃ errs : List String,
      (↑errs : Multiset String) = ↑(failMsgs (outcomes ctx ws)) ∧
      errs.length = ((outcomes ctx ws).filter
        (fun t => decide (t ≠ TaskOutcome.ok))).length ∧
      out = aggResult errs ∧
      (errs ≠ [] →
        out = ProcOutcome.raised (String.intercalate "\n" errs)) := by
  obtain ⟨s, hr, ht, hagg⟩ := can_completes_inv hw hout
  obtain ⟨hdone, herrs⟩ := terminal_done_eq hr ht
  refine ⟨s.errs, herrs, ?_, hagg, ?_⟩
  · have hcard := congrArg Multiset.card herrs
    rw [Multiset.coe_card, Multiset.coe_card] at hcard
    rw [hcard, failMsgs_length]
  · intro hne
    rw [hagg, aggResult_ne_nil hne]

/-- Witness for C4: one failing task; the collected list is exactly its
message. -/
theorem parallelCtx_exactly_k_failures_witness :
    wrapAll [GoFnVal.ctxFn (fun _ => TaskOutcome.fail "boom")]
      = some [fun _ => TaskOutcome.fail "boom"] ∧
    ∃ out, ParallelCtxCan 1 GoContext.background
        [GoFnVal.ctxFn (fun _ => TaskOutcome.fail "boom")] out ∧
      ∃ errs : List String,
        (↑errs : Multiset String)
          = ↑(failMsgs (outcomes GoContext.background
              [fun _ => TaskOutcome.fail "boom"])) ∧
        errs.length = ((outcomes GoContext.background
          [fun _ => TaskOutcome.fail "boom"]).filter
            (fun t => decide (t ≠ TaskOutcome.ok))).length ∧
        out = aggResult errs ∧
        (errs ≠ [] →
          out = ProcOutcome.raised (String.intercalate "\n" errs)) := by
  obtain ⟨s, hr, ht, herrs⟩ := single_task_run (TaskOutcome.fail "boom")
  have hcan := @ParallelCtxCan.completes 1 GoContext.background
      [GoFnVal.ctxFn (fun _ => TaskOutcome.fail "boom")]
      [fun _ => TaskOutcome.fail "boom"] s rfl hr ht
  exact ⟨rfl, aggResult s.errs, hcan,
    parallelCtx_exactly_k_failures 1 GoContext.background
      [GoFnVal.ctxFn (fun _ => TaskOutcome.fail "boom")]
      [fun _ => TaskOutcome.fail "boom"] (aggResult s.errs) rfl hcan⟩

/-- C5: a task that panics is recovered: its panic message is collected like
an ordinary failure, the run still reaches a state where every task has
completed, and the call ends in the ordinary aggregated panic rather than
terminating the process. -/
theorem parallelCtx_recovers_panics (cap : Nat) (ctx : GoContext)
    (fns : List GoFnVal) (ws : List (GoContext → TaskOutcome)) (m : String)
    (hcap : 1 ≤ cap) (hw : wrapAll fns = some ws)
    (hm : TaskOutcome.panicked m ∈ outcomes ctx ws) :
    (∃ out, ParallelCtxCan cap ctx fns out) ∧
    (∀ out, ParallelCtxCan cap ctx fns out →
      ∃ s : RunState, Reachable cap (outcomes ctx ws) s ∧ Terminal s ∧
        s.done = ↑(outcomes ctx ws) ∧ m ∈ s.errs ∧
        out = ProcOutcome.raised (String.intercalate "\n" s.errs)) := by
  constructor
  · obtain ⟨s, hr, ht⟩ := reachable_terminal cap (outcomes ctx ws) hcap
    exact ⟨aggResult s.errs, ParallelCtxCan.completes ws s hw hr ht⟩
  · intro out hout
    obtain ⟨s, hr, ht, hagg⟩ := can_completes_inv hw hout
    obtain ⟨hdone, herrs⟩ := terminal_done_eq hr ht
    have hmem : m ∈ s.errs := by
      have : m ∈ (↑s.errs : Multiset String) := by
        rw [herrs]
        exact Multiset.mem_coe.mpr (mem_failMsgs_of_mem hm)
      exact Multiset.mem_coe.mp this
    have hne : s.errs ≠ [] := by
      intro hnil
      rw [hnil] at hmem
      cases hmem
    refine ⟨s, hr, ht, hdone, hmem, ?_⟩
    rw [hagg, aggResult_ne_nil hne]

/-- Witness for C5: a single panicking task with capacity 1. -/
theorem parallelCtx_recovers_panics_witness :
    1 ≤ 1 ∧
    wrapAll [GoFnVal.ctxFn (fun _ => TaskOutcome.panicked "pm")]
      = some [fun _ => TaskOutcome.panicked "pm"] ∧
    TaskOutcome.panicked "pm" ∈ outcomes GoContext.background
      [fun _ => TaskOutcome.panicked "pm"] ∧
    (∃ out, ParallelCtxCan 1 GoContext.background
      [GoFnVal.ctxFn (fun _ => TaskOutcome.panicked "pm")] out) :=
  ⟨le_refl 1, rfl, List.mem_singleton.mpr rfl,
   (parallelCtx_recovers_panics 1 GoContext.background
      [GoFnVal.ctxFn (fun _ => TaskOutcome.panicked "pm")]
      [fun _ => TaskOutcome.panicked "pm"] "pm"
      (le_refl 1) rfl (List.mem_singleton.mpr rfl)).1⟩

end Mage
